import Mathlib

/-!
Verification development for the Riwaz `ml_training` pipeline.

The definitions below are a shallow embedding of the numeric core of the
repository:

* `pitch_to_bin` / `bin_to_pitch` — the logarithmic pitch codec from
  `ml_training/pitch_detection/train_pitch_model.py` (lines 64–84);
* the pitch-evaluation aggregation and the classification metrics from
  `ml_training/utils/evaluation.py` (lines 64–73 and 143–158);
* the converter configuration, conversion outcome and test-inference flow
  from `ml_training/utils/tflite_converter.py`.

Python floats are modelled as real numbers where logarithms are involved and
as rationals where only field arithmetic occurs, so concrete inputs can be
evaluated.  Definitions whose doc comment starts with `Modelled from the
spec:` stand for behaviour of external collaborators (TensorFlow, scikit-learn)
that the repository calls but does not itself implement.
-/

namespace Riwaz

/-! ### Pitch bin codec — `train_pitch_model.py`, lines 64–84 -/

/-- Python's `int()` applied to a float truncates toward zero. -/
noncomputable def pyTrunc (x : ℝ) : ℤ := if 0 ≤ x then ⌊x⌋ else ⌈x⌉

/-- Embeds `pitch_to_bin` (`train_pitch_model.py` lines 64–75): range check
returning `-1`, then linear-in-log2 scaling, `int()` truncation, and a clamp
to `num_bins - 1`. -/
noncomputable def pitch_to_bin (pitch_hz : ℝ) (min_pitch : ℝ := 50)
    (max_pitch : ℝ := 500) (num_bins : ℕ := 360) : ℤ :=
  if pitch_hz < min_pitch ∨ max_pitch < pitch_hz then -1
  else
    min
      (pyTrunc ((Real.logb 2 pitch_hz - Real.logb 2 min_pitch) /
        (Real.logb 2 max_pitch - Real.logb 2 min_pitch) * (num_bins : ℝ)))
      ((num_bins : ℤ) - 1)

/-- Embeds `bin_to_pitch` (`train_pitch_model.py` lines 78–84): the inverse
linear-in-log2 map, `2 ** log_pitch` modelled as a real power. -/
noncomputable def bin_to_pitch (bin_idx : ℤ) (min_pitch : ℝ := 50)
    (max_pitch : ℝ := 500) (num_bins : ℕ := 360) : ℝ :=
  (2 : ℝ) ^ (Real.logb 2 min_pitch +
    ((bin_idx : ℝ) / (num_bins : ℝ)) * (Real.logb 2 max_pitch - Real.logb 2 min_pitch))

/-! ### Pitch evaluation aggregation — `evaluation.py`, lines 64–73 -/

/-- Embeds the per-sample value of `cents_diff = np.abs(predictions - ground_truth)`
(`evaluation.py` line 69): the raw absolute difference, applied to whatever
numbers are in the two arrays. -/
def centsDiff (pred gt : ℚ) : ℚ := |pred - gt|

/-- Elementwise `np.abs(predictions - ground_truth)` over the two parallel
sequences. -/
def centsDiffs (preds gts : List ℚ) : List ℚ := List.zipWith centsDiff preds gts

/-- Embeds `rpa_50 = np.mean(cents_diff < 50) * 100` (`evaluation.py` line 71). -/
def rpa50 (preds gts : List ℚ) : ℚ :=
  (((centsDiffs preds gts).countP (fun d => decide (d < 50)) : ℚ) /
    ((centsDiffs preds gts).length : ℚ)) * 100

/-- Embeds `gpe = np.mean(cents_diff > 100) * 100` (`evaluation.py` line 72). -/
def gpe (preds gts : List ℚ) : ℚ :=
  (((centsDiffs preds gts).countP (fun d => decide (100 < d)) : ℚ) /
    ((centsDiffs preds gts).length : ℚ)) * 100

/-- Embeds `mae = np.mean(cents_diff)` (`evaluation.py` line 73). -/
def maeCents (preds gts : List ℚ) : ℚ :=
  (centsDiffs preds gts).sum / ((centsDiffs preds gts).length : ℚ)

/-- Spec-side definition (§4.2 of the spec): absolute cents error as the
magnitude of `1200 * log2(pred_hz / true_hz)`.  Used only to compare the
source's computation against the spec's formula. -/
noncomputable def centsErrorSpec (pred_hz true_hz : ℝ) : ℝ :=
  |1200 * Real.logb 2 (pred_hz / true_hz)|

/-- Spec-side definition (§4.2 / §7 of the spec): the mean absolute error the
spec demands, aggregating only samples whose predicted and true values are
both positive.  Used only to compare the source's aggregation against it. -/
def maeCentsValidOnly (preds gts : List ℚ) : ℚ :=
  ((((preds.zip gts).filter (fun s => decide (0 < s.1 ∧ 0 < s.2))).map
      (fun s => |s.1 - s.2|)).sum) /
    (((preds.zip gts).filter (fun s => decide (0 < s.1 ∧ 0 < s.2))).length : ℚ)

/-! ### Classification metrics — `evaluation.py`, lines 143–158 -/

/-- Embeds `top1_acc = np.mean(predictions == ground_truth) * 100`
(`evaluation.py` line 147). -/
def top1_accuracy (y_true y_pred : List ℕ) : ℚ :=
  (((y_true.zip y_pred).countP (fun s => decide (s.1 = s.2)) : ℚ) /
    ((y_true.zip y_pred).length : ℚ)) * 100

/-- Modelled from the spec: the label set scikit-learn's `confusion_matrix`
uses when the source calls it with no `labels` argument (`evaluation.py`
line 158) — the sorted distinct values occurring in either sequence. -/
def presentLabels (y_true y_pred : List ℕ) : List ℕ :=
  Finset.sort (· ≤ ·) (y_true ++ y_pred).toFinset

/-- Count of samples whose true value is `a` and predicted value is `b`. -/
def cmEntry (y_true y_pred : List ℕ) (a b : ℕ) : ℕ :=
  (y_true.zip y_pred).countP (fun s => decide (s.1 = a ∧ s.2 = b))

/-- Modelled from the spec: scikit-learn's `confusion_matrix(ground_truth,
predictions)` as called at `evaluation.py` line 158 with no `labels`
argument — a square grid indexed `[true][predicted]` over the sorted distinct
labels present in the data. -/
def confusion_matrix (y_true y_pred : List ℕ) : List (List ℕ) :=
  (presentLabels y_true y_pred).map (fun a =>
    (presentLabels y_true y_pred).map (fun b => cmEntry y_true y_pred a b))

/-- True positives of class `c`. -/
def classTP (y_true y_pred : List ℕ) (c : ℕ) : ℕ :=
  (y_true.zip y_pred).countP (fun s => decide (s.1 = c ∧ s.2 = c))

/-- False positives of class `c`. -/
def classFP (y_true y_pred : List ℕ) (c : ℕ) : ℕ :=
  (y_true.zip y_pred).countP (fun s => decide (¬s.1 = c ∧ s.2 = c))

/-- False negatives of class `c`. -/
def classFN (y_true y_pred : List ℕ) (c : ℕ) : ℕ :=
  (y_true.zip y_pred).countP (fun s => decide (s.1 = c ∧ ¬s.2 = c))

/-- Modelled from the spec: per-class precision as computed by scikit-learn's
`classification_report` with `zero_division=0` (`evaluation.py` lines
150–155). -/
def precisionOf (y_true y_pred : List ℕ) (c : ℕ) : ℚ :=
  if classTP y_true y_pred c + classFP y_true y_pred c = 0 then 0
  else (classTP y_true y_pred c : ℚ) /
    ((classTP y_true y_pred c : ℚ) + (classFP y_true y_pred c : ℚ))

/-- Modelled from the spec: per-class recall with `zero_division=0`. -/
def recallOf (y_true y_pred : List ℕ) (c : ℕ) : ℚ :=
  if classTP y_true y_pred c + classFN y_true y_pred c = 0 then 0
  else (classTP y_true y_pred c : ℚ) /
    ((classTP y_true y_pred c : ℚ) + (classFN y_true y_pred c : ℚ))

/-- Modelled from the spec: per-class F1 as the harmonic mean of precision and
recall, `0` when both are `0`. -/
def f1Of (y_true y_pred : List ℕ) (c : ℕ) : ℚ :=
  if precisionOf y_true y_pred c + recallOf y_true y_pred c = 0 then 0
  else 2 * precisionOf y_true y_pred c * recallOf y_true y_pred c /
    (precisionOf y_true y_pred c + recallOf y_true y_pred c)

/-! ### Converter — `tflite_converter.py` -/

/-- Tensor element types relevant to the converter flags. -/
inductive TfDtype where
  | float32
  | float16
  | int8
deriving DecidableEq

/-- The `--quantize` argparse choices (`tflite_converter.py` line 120);
`Option` models the `None` default. -/
inductive QuantizeMode where
  | int8
  | float16
deriving DecidableEq

/-- The converter state set up by `convert_to_tflite` before calling
`converter.convert()` (`tflite_converter.py` lines 26–43). -/
structure ConverterConfig where
  optimizations : Bool
  supportedOpsInt8Only : Bool
  supportedTypesFloat16 : Bool
  inference_input_type : TfDtype
  inference_output_type : TfDtype
deriving DecidableEq

/-- Embeds the flag assignments of `convert_to_tflite` (`tflite_converter.py`
lines 29–43): `optimize` toggles `converter.optimizations`; `int8` restricts
`supported_ops` to the int8 builtins and sets both inference tensor types to
`int8`; `float16` only narrows `supported_types`. -/
def configure (optimize : Bool) (quantize : Option QuantizeMode) : ConverterConfig :=
  match quantize with
  | some QuantizeMode.int8 => ⟨optimize, true, false, TfDtype.int8, TfDtype.int8⟩
  | some QuantizeMode.float16 => ⟨optimize, false, true, TfDtype.float32, TfDtype.float32⟩
  | none => ⟨optimize, false, false, TfDtype.float32, TfDtype.float32⟩

/-- The trained Keras model handle, abstracted to the one property the
conversion flow branches on. -/
structure KerasModel where
  hasOpUnsupportedInInt8 : Bool

/-- Failure of `converter.convert()`. -/
inductive ConvError where
  | unsupportedQuantizationTarget
deriving DecidableEq

/-- The serialized `.tflite` flatbuffer, abstracted to its declared tensor
element types. -/
structure TFLiteArtifact where
  inputDtype : TfDtype
  outputDtype : TfDtype
deriving DecidableEq

/-- Modelled from the spec: the external `converter.convert()` call
(`tflite_converter.py` line 47).  Per §4.3 and §6 of the spec it raises when
the op set is restricted to pure-integer builtins and the network contains an
unsupported operation, and otherwise produces an artifact whose declared
tensor types are the configured inference types. -/
def converterConvert (cfg : ConverterConfig) (m : KerasModel) :
    Except ConvError TFLiteArtifact :=
  if cfg.supportedOpsInt8Only && m.hasOpUnsupportedInInt8 then
    Except.error ConvError.unsupportedQuantizationTarget
  else
    Except.ok ⟨cfg.inference_input_type, cfg.inference_output_type⟩

/-- Result of a successful `convert_to_tflite` run: the artifact, and the fact
that the output file write (`tflite_converter.py` lines 53–54) happened. -/
structure ConvertOutcome where
  artifact : TFLiteArtifact
  fileWritten : Bool
deriving DecidableEq

/-- Embeds the control flow of `convert_to_tflite` (`tflite_converter.py`
lines 13–67): configure, call `converter.convert()`, and only on success write
the output file.  An exception from `convert()` propagates before any file is
opened, so the error branch carries no outcome. -/
def convert_to_tflite (m : KerasModel) (optimize : Bool)
    (quantize : Option QuantizeMode) : Except ConvError ConvertOutcome :=
  match converterConvert (configure optimize quantize) m with
  | Except.error e => Except.error e
  | Except.ok a => Except.ok ⟨a, true⟩

/-- Embeds `compression_ratio = (1 - tflite_size / original_size) * 100`
(`tflite_converter.py` lines 57–59), where both sizes are the byte counts
divided by `1024 * 1024`. -/
def compression_stat (original_bytes tflite_bytes : ℚ) : ℚ :=
  (1 - (tflite_bytes / (1024 * 1024)) / (original_bytes / (1024 * 1024))) * 100

/-- The loaded TFLite interpreter as seen by `test_tflite_model`
(`tflite_converter.py` lines 81–102): the declared input shape, the declared
output shape, and the external inference step mapping an input shape to the
shape of the tensor it actually returns. -/
structure InterpreterModel where
  inputShape : List ℕ
  outputShape : List ℕ
  infer : List ℕ → List ℕ

/-- Embeds `test_tflite_model` (`tflite_converter.py` lines 70–108): when no
test input is supplied a synthetic one with the declared input shape is
created, inference runs, and the actual output is returned; the function
performs no comparison between the declared and the actual output shape. -/
def test_tflite_model (m : InterpreterModel) (test_input : Option (List ℕ)) :
    List ℕ :=
  m.infer (test_input.getD m.inputShape)

/-- Embeds the call site in `main` (`tflite_converter.py` lines 136–137): the
verification inference runs only when the `--test` flag was passed. -/
def runTestIfRequested (testFlag : Bool) (m : InterpreterModel) :
    Option (List ℕ) :=
  if testFlag then some (test_tflite_model m none) else none

/-! ### Claim C1 — cents formula -/

/-- Claim C1: the spec says pitch evaluation computes the absolute error in
cents as the magnitude of `1200 * log2(pred_hz / true_hz)`, so that
`true_hz = 200, pred_hz = 400` gives `1200`.  The source (`evaluation.py`
line 69) instead takes the raw absolute difference: at that same input it
produces `200`, diverging from the spec formula (which the spec itself flags
as a latent defect of the source in §9). -/
theorem c1_cents_formula_divergence :
    centsDiff 200 200 = 0 ∧
    centsDiff 400 200 = 200 ∧
    centsErrorSpec 400 200 = 1200 ∧
    ((centsDiff 400 200 : ℚ) : ℝ) ≠ centsErrorSpec 400 200 := by
  have hspec : centsErrorSpec 400 200 = 1200 := by
    unfold centsErrorSpec
    have h1 : (400 : ℝ) / 200 = 2 := by norm_num
    rw [h1, Real.logb_self_eq_one (by norm_num)]
    norm_num
  refine ⟨by norm_num [centsDiff], by norm_num [centsDiff], hspec, ?_⟩
  rw [hspec]
  norm_num [centsDiff]

/-! ### Claim C2 — no validity filtering in pitch aggregation -/

/-- Claim C2 counterexample: the claim says a sample with non-positive
predicted frequency is excluded from the aggregation.  On the input
`preds = [-100, 200]`, `gts = [200, 200]` the source's aggregation returns
MAE `150` — the invalid sample contributes fully — while aggregating only the
valid samples would return `0`. -/
theorem c2_filtering_counterexample :
    maeCents [-100, 200] [200, 200] = 150 ∧
    maeCentsValidOnly [-100, 200] [200, 200] = 0 ∧
    maeCents [-100, 200] [200, 200] ≠ maeCentsValidOnly [-100, 200] [200, 200] := by
  have h1 : maeCents [-100, 200] [200, 200] = 150 := by
    norm_num [maeCents, centsDiffs, centsDiff]
  have h2 : maeCentsValidOnly [-100, 200] [200, 200] = 0 := by
    norm_num [maeCentsValidOnly, List.filter]
  refine ⟨h1, h2, ?_⟩
  rw [h1, h2]
  norm_num

/-- Claim C2 as amended: the pitch aggregation of `evaluation.py` applies no
validity filter at all — every zipped sample enters the aggregate, and a
single sample with non-positive predicted value determines the whole MAE
instead of being excluded. -/
theorem c2_no_validity_filter :
    (∀ preds gts : List ℚ, (centsDiffs preds gts).length = min preds.length gts.length) ∧
    (∀ p g : ℚ, p ≤ 0 → maeCents [p] [g] = |p - g|) := by
  constructor
  · intro preds gts
    simp [centsDiffs]
  · intro p g _
    simp [maeCents, centsDiffs, centsDiff]

/-- Claim C2 witness: the amended statement at the concrete non-positive
sample `(-100, 200)`. -/
theorem c2_filtering_witness :
    maeCents [(-100 : ℚ)] [(200 : ℚ)] = |(-100 : ℚ) - 200| :=
  c2_no_validity_filter.2 (-100) 200 (by norm_num)

/-! ### Claim C3 — compression statistic -/

/-- Claim C3 counterexample: for an original size of 10 MB (10485760 bytes)
and a packaged size of 2.5 MB (2621440 bytes) the source computes `75`, not
the claimed `0.75`. -/
theorem c3_compression_counterexample :
    compression_stat 10485760 2621440 = 75 ∧
    compression_stat 10485760 2621440 ≠ 0.75 := by
  constructor <;> norm_num [compression_stat]

/-- Claim C3 as amended: the compression statistic the converter reports is
the percentage `(1 - packagedSize / originalSize) * 100`, computed from the
actual byte sizes (the MB rescaling of both sizes cancels); for 10 MB
original and 2.5 MB packaged it equals `75`. -/
theorem c3_compression_percent :
    (∀ original tflite : ℚ, 0 < original →
      compression_stat original tflite = (1 - tflite / original) * 100) ∧
    compression_stat 10485760 2621440 = 75 := by
  constructor
  · intro o t ho
    unfold compression_stat
    field_simp
  · norm_num [compression_stat]

/-- Claim C3 witness: the amended statement at the concrete byte sizes of the
claim. -/
theorem c3_compression_witness :
    compression_stat 10485760 2621440 = (1 - 2621440 / 10485760) * 100 :=
  c3_compression_percent.1 10485760 2621440 (by norm_num)

/-! ### Claim C4 — verification inference -/

/-- Claim C4 counterexample: the claim says every conversion runs a
verification inference and that an output-shape mismatch aborts.  With the
`--test` flag off no inference runs at all, and on a loaded model whose
inference returns shape `[5]` against a declared output shape `[1, 360]`
`test_tflite_model` still returns normally. -/
theorem c4_verification_counterexample :
    runTestIfRequested false ⟨[1, 1024, 1], [1, 360], fun _ => [5]⟩ = none ∧
    test_tflite_model ⟨[1, 1024, 1], [1, 360], fun _ => [5]⟩ none = [5] ∧
    ([5] : List ℕ) ≠ [1, 360] := by
  refine ⟨rfl, rfl, by decide⟩

/-- Claim C4 as amended: the verification inference is optional — `main` runs
it only when the `--test` flag is passed; when it does run, the synthetic
input uses the declared input shape, the actual output is returned and
printed, and no comparison with the declared output shape is made, so a
mismatch does not abort anything. -/
theorem c4_test_inference_optional :
    (∀ m : InterpreterModel, runTestIfRequested false m = none) ∧
    (∀ m : InterpreterModel, runTestIfRequested true m = some (m.infer m.inputShape)) ∧
    (∀ m : InterpreterModel, m.infer m.inputShape ≠ m.outputShape →
      runTestIfRequested true m = some (m.infer m.inputShape)) := by
  refine ⟨fun m => rfl, fun m => rfl, fun m _ => rfl⟩

/-- Claim C4 witness: the amended statement at a concrete interpreter whose
actual output shape differs from its declared one. -/
theorem c4_test_witness :
    runTestIfRequested true ⟨[1, 1024, 1], [1, 360], fun _ => [5]⟩ = some [5] :=
  c4_test_inference_optional.2.2 ⟨[1, 1024, 1], [1, 360], fun _ => [5]⟩ (by decide)

/-! ### Claim C8 — int8 quantization mode -/

/-- Claim C8: requesting int8 quantization sets both declared tensor element
types of the packaged artifact to 8-bit integers, and a network containing an
operation unsupported in pure-integer inference makes the conversion fail
before the output file is written (the error propagates out of
`converter.convert()`, which runs before the file is opened), with no silent
fallback. -/
theorem c8_int8_contract : ∀ (m : KerasModel) (optimize : Bool),
    (configure optimize (some QuantizeMode.int8)).inference_input_type = TfDtype.int8 ∧
    (configure optimize (some QuantizeMode.int8)).inference_output_type = TfDtype.int8 ∧
    (m.hasOpUnsupportedInInt8 = true →
      convert_to_tflite m optimize (some QuantizeMode.int8) =
        Except.error ConvError.unsupportedQuantizationTarget) ∧
    (∀ out : ConvertOutcome,
      convert_to_tflite m optimize (some QuantizeMode.int8) = Except.ok out →
      out.artifact.inputDtype = TfDtype.int8 ∧
        out.artifact.outputDtype = TfDtype.int8) := by
  intro m optimize
  refine ⟨rfl, rfl, ?_, ?_⟩
  · intro h
    simp [convert_to_tflite, converterConvert, configure, h]
  · intro out hout
    by_cases hb : m.hasOpUnsupportedInInt8
    · simp [convert_to_tflite, converterConvert, configure, hb] at hout
    · simp only [Bool.not_eq_true] at hb
      simp [convert_to_tflite, converterConvert, configure, hb] at hout
      rw [← hout]
      exact ⟨rfl, rfl⟩

/-- Claim C8 witness: a model with an int8-unsupported op fails, and a
supported one yields an artifact with int8 tensor types. -/
theorem c8_int8_witness :
    convert_to_tflite ⟨true⟩ true (some QuantizeMode.int8) =
      Except.error ConvError.unsupportedQuantizationTarget ∧
    ((⟨⟨TfDtype.int8, TfDtype.int8⟩, true⟩ : ConvertOutcome).artifact.inputDtype =
        TfDtype.int8 ∧
      (⟨⟨TfDtype.int8, TfDtype.int8⟩, true⟩ : ConvertOutcome).artifact.outputDtype =
        TfDtype.int8) :=
  ⟨(c8_int8_contract ⟨true⟩ true).2.2.1 rfl,
    (c8_int8_contract ⟨false⟩ true).2.2.2 ⟨⟨TfDtype.int8, TfDtype.int8⟩, true⟩ rfl⟩

/-! ### Classification helper lemmas -/

/-- Counting over a sequence zipped with itself counts the diagonal pairs. -/
lemma countP_zip_self (p : ℕ × ℕ → Bool) :
    ∀ y : List ℕ, (y.zip y).countP p = y.countP (fun x => p (x, x))
  | [] => rfl
  | x :: xs => by
    simp only [List.zip_cons_cons, List.countP_cons, countP_zip_self p xs]

/-- With identical sequences, off-diagonal confusion entries vanish. -/
lemma cmEntry_self_offdiag {a b : ℕ} (y : List ℕ) (hab : a ≠ b) :
    cmEntry y y a b = 0 := by
  unfold cmEntry
  rw [countP_zip_self]
  apply List.countP_eq_zero.mpr
  intro x _
  simp only [decide_eq_true_eq]
  rintro ⟨rfl, rfl⟩
  exact hab rfl

/-- With identical sequences there are no false positives. -/
lemma classFP_self (y : List ℕ) (c : ℕ) : classFP y y c = 0 := by
  unfold classFP
  rw [countP_zip_self]
  apply List.countP_eq_zero.mpr
  intro x _
  simp only [decide_eq_true_eq]
  rintro ⟨hne, rfl⟩
  exact hne rfl

/-- With identical sequences there are no false negatives. -/
lemma classFN_self (y : List ℕ) (c : ℕ) : classFN y y c = 0 := by
  unfold classFN
  rw [countP_zip_self]
  apply List.countP_eq_zero.mpr
  intro x _
  simp only [decide_eq_true_eq]
  rintro ⟨rfl, hne⟩
  exact hne rfl

/-- A class present in the ground truth has a positive true-positive count
under perfect predictions. -/
lemma classTP_self_pos {c : ℕ} {y : List ℕ} (hc : c ∈ y) : 0 < classTP y y c := by
  unfold classTP
  rw [countP_zip_self]
  exact List.countP_pos_iff.mpr ⟨c, hc, by simp⟩

/-! ### Claim C9 — perfect-prediction classification metrics -/

/-- Claim C9: when every predicted class index equals the corresponding true
one and the input is non-empty, top-1 accuracy is 100, the confusion matrix
is zero off the diagonal, and every class present in the ground truth has an
F1 score of 1. -/
theorem c9_perfect_predictions : ∀ y : List ℕ, y ≠ [] →
    top1_accuracy y y = 100 ∧
    (∀ i j : ℕ, i ≠ j → ((confusion_matrix y y).getD i []).getD j 0 = 0) ∧
    (∀ c ∈ y, f1Of y y c = 1) := by
  intro y hy
  refine ⟨?_, ?_, ?_⟩
  · unfold top1_accuracy
    rw [countP_zip_self]
    have h1 : (y.countP fun x => decide ((x, x).1 = (x, x).2)) = y.length :=
      List.countP_eq_length.mpr (fun a _ => by simp)
    have h2 : (y.zip y).length = y.length := by simp
    have h3 : ((y.length : ℚ)) ≠ 0 :=
      Nat.cast_ne_zero.mpr (List.length_pos.mpr hy).ne'
    rw [h1, h2, div_self h3, one_mul]
  · intro i j hij
    by_cases hi : i < (confusion_matrix y y).length
    · rw [List.getD_eq_getElem _ _ hi]
      have hiL : i < (presentLabels y y).length := by
        simpa [confusion_matrix] using hi
      have hrow : (confusion_matrix y y)[i] =
          (presentLabels y y).map
            (fun b => cmEntry y y ((presentLabels y y)[i]) b) := by
        simp [confusion_matrix]
      rw [hrow]
      by_cases hj : j < ((presentLabels y y).map
          (fun b => cmEntry y y ((presentLabels y y)[i]) b)).length
      · rw [List.getD_eq_getElem _ _ hj]
        have hjL : j < (presentLabels y y).length := by simpa using hj
        rw [List.getElem_map]
        apply cmEntry_self_offdiag
        intro heq
        have hnd : (presentLabels y y).Nodup := Finset.sort_nodup _ _
        exact hij (hnd.getElem_inj_iff.mp heq)
      · rw [List.getD_eq_default _ _ (le_of_not_lt hj)]
    · rw [List.getD_eq_default _ _ (le_of_not_lt hi)]
      simp
  · intro c hc
    have hTP : 0 < classTP y y c := classTP_self_pos hc
    have hTPQ : ((classTP y y c : ℚ)) ≠ 0 := Nat.cast_ne_zero.mpr hTP.ne'
    have hprec : precisionOf y y c = 1 := by
      unfold precisionOf
      rw [classFP_self, if_neg (by omega)]
      simp [div_self hTPQ]
    have hrec : recallOf y y c = 1 := by
      unfold recallOf
      rw [classFN_self, if_neg (by omega)]
      simp [div_self hTPQ]
    unfold f1Of
    rw [hprec, hrec]
    norm_num

/-- Claim C9 witness: the theorem at the concrete input `y = [0]`. -/
theorem c9_perfect_witness :
    top1_accuracy [0] [0] = 100 ∧ f1Of [0] [0] 0 = 1 :=
  ⟨(c9_perfect_predictions [0] (by simp)).1,
    (c9_perfect_predictions [0] (by simp)).2.2 0 (by simp)⟩

/-! ### Claim C5 — confusion-matrix shape -/

/-- Claim C5 counterexample: the claim says the confusion matrix is 12×12 for
every input, even with absent classes.  `confusion_matrix(ground_truth,
predictions)` is called with no `labels` argument, so scikit-learn derives
the label set from the data: on `y_true = [0]`, `y_pred = [0]` the matrix is
1×1, not 12×12. -/
theorem c5_matrix_size_counterexample :
    (confusion_matrix [0] [0]).length = 1 ∧
    (confusion_matrix [0] [0]).length ≠ 12 := by
  have hlab : presentLabels [0] [0] = [0] := by
    unfold presentLabels
    have : (([0] ++ [0] : List ℕ)).toFinset = {0} := by simp
    rw [this, Finset.sort_singleton]
  constructor <;> simp [confusion_matrix, hlab]

/-- Claim C5 as amended: the confusion matrix is a square grid indexed
`[true][predicted]` over the sorted distinct class values present in either
input sequence; it is 12×12 in the canonical order `0..11` exactly when the
values present in the inputs are the twelve class indices (as in the shipped
evaluation harness, whose ground truth always contains all 12 classes). -/
theorem c5_labels_inferred_from_data :
    (∀ y_true y_pred : List ℕ,
      (confusion_matrix y_true y_pred).length = (presentLabels y_true y_pred).length ∧
      (∀ row ∈ confusion_matrix y_true y_pred,
        row.length = (presentLabels y_true y_pred).length)) ∧
    (∀ y_true y_pred : List ℕ, (∀ c : ℕ, c ∈ y_true ++ y_pred ↔ c < 12) →
      presentLabels y_true y_pred = List.range 12 ∧
      (∀ i j : ℕ, i < 12 → j < 12 →
        ((confusion_matrix y_true y_pred).getD i []).getD j 0 =
          cmEntry y_true y_pred i j)) := by
  constructor
  · intro yt yp
    constructor
    · simp [confusion_matrix]
    · intro row hrow
      simp only [confusion_matrix, List.mem_map] at hrow
      obtain ⟨a, _, rfl⟩ := hrow
      simp
  · intro yt yp h
    have hfin : (yt ++ yp).toFinset = Finset.range 12 := by
      ext c
      simp only [List.mem_toFinset, Finset.mem_range]
      exact h c
    have hlab : presentLabels yt yp = List.range 12 := by
      unfold presentLabels
      rw [hfin, Finset.sort_range]
    refine ⟨hlab, ?_⟩
    intro i j hi hj
    unfold confusion_matrix
    rw [hlab]
    have hrow : ((List.range 12).map
        (fun a => (List.range 12).map (fun b => cmEntry yt yp a b))).getD i [] =
        (List.range 12).map (fun b => cmEntry yt yp i b) := by
      rw [List.getD_eq_getElem _ _ (by simpa using hi), List.getElem_map,
        List.getElem_range]
    rw [hrow, List.getD_eq_getElem _ _ (by simpa using hj), List.getElem_map,
      List.getElem_range]

/-- Claim C5 witness: the amended statement at inputs containing all 12
classes — the labels are the canonical `0..11`. -/
theorem c5_labels_witness :
    presentLabels (List.range 12) (List.range 12) = List.range 12 :=
  (c5_labels_inferred_from_data.2 (List.range 12) (List.range 12)
    (by intro c; simp)).1

/-! ### Pitch codec helper lemmas -/

/-- The scaled position of a frequency inside the log2-linear bin range, the
quantity the source floors and clamps. -/
noncomputable def binPos (hz : ℝ) : ℝ :=
  (Real.logb 2 hz - Real.logb 2 50) / (Real.logb 2 500 - Real.logb 2 50) * 360

lemma logbL_pos : 0 < Real.logb 2 500 - Real.logb 2 50 :=
  sub_pos.mpr (Real.logb_lt_logb (by norm_num) (by norm_num) (by norm_num))

lemma logbL_eq : Real.logb 2 500 - Real.logb 2 50 = Real.logb 2 10 := by
  unfold Real.logb
  rw [div_sub_div_same, ← Real.log_div (by norm_num) (by norm_num)]
  norm_num

lemma binPos_nonneg {hz : ℝ} (h : 50 ≤ hz) : 0 ≤ binPos hz :=
  mul_nonneg (div_nonneg (sub_nonneg.mpr
    (Real.logb_le_logb_of_le (by norm_num) (by norm_num) h)) logbL_pos.le)
    (by norm_num)

lemma binPos_lt_360 {hz : ℝ} (h50 : 50 ≤ hz) (h500 : hz < 500) :
    binPos hz < 360 := by
  have hlt : Real.logb 2 hz - Real.logb 2 50 <
      Real.logb 2 500 - Real.logb 2 50 :=
    sub_lt_sub_right (Real.logb_lt_logb (by norm_num) (by linarith) h500) _
  have h1 := (div_lt_one logbL_pos).mpr hlt
  have h2 : (Real.logb 2 hz - Real.logb 2 50) /
      (Real.logb 2 500 - Real.logb 2 50) * 360 < 1 * 360 :=
    mul_lt_mul_of_pos_right h1 (by norm_num)
  unfold binPos
  linarith

lemma pitch_to_bin_in_range {hz : ℝ} (h50 : 50 ≤ hz) (h500 : hz ≤ 500) :
    pitch_to_bin hz = min ⌊binPos hz⌋ 359 := by
  have hE : (Real.logb 2 hz - Real.logb 2 50) /
      (Real.logb 2 500 - Real.logb 2 50) * ((360 : ℕ) : ℝ) = binPos hz := by
    unfold binPos
    norm_num
  unfold pitch_to_bin pyTrunc
  rw [if_neg (by push_neg; exact ⟨h50, h500⟩), hE,
    if_pos (binPos_nonneg h50)]
  norm_num

lemma pitch_to_bin_of_lt {hz : ℝ} (h50 : 50 ≤ hz) (h500 : hz < 500) :
    pitch_to_bin hz = ⌊binPos hz⌋ := by
  rw [pitch_to_bin_in_range h50 h500.le]
  have hlt : ⌊binPos hz⌋ < (360 : ℤ) :=
    Int.floor_lt.mpr (by exact_mod_cast binPos_lt_360 h50 h500)
  exact min_eq_left (by omega)

lemma bin_to_pitch_eq (b : ℤ) :
    bin_to_pitch b = (2 : ℝ) ^ (Real.logb 2 50 +
      ((b : ℝ) / 360) * (Real.logb 2 500 - Real.logb 2 50)) := by
  unfold bin_to_pitch
  norm_num

lemma rpow_two_logb_eq {x : ℝ} (hx : 0 < x) : (2 : ℝ) ^ Real.logb 2 x = x :=
  Real.rpow_logb (by norm_num) (by norm_num) hx

lemma logb_bin_to_pitch (b : ℤ) :
    Real.logb 2 (bin_to_pitch b) = Real.logb 2 50 +
      ((b : ℝ) / 360) * (Real.logb 2 500 - Real.logb 2 50) := by
  rw [bin_to_pitch_eq, Real.logb_rpow (by norm_num) (by norm_num)]

lemma logb_decomp (hz : ℝ) :
    Real.logb 2 hz = Real.logb 2 50 +
      (binPos hz / 360) * (Real.logb 2 500 - Real.logb 2 50) := by
  have hL : Real.logb 2 500 - Real.logb 2 50 ≠ 0 := logbL_pos.ne'
  unfold binPos
  field_simp
  ring

lemma bin_to_pitch_mono {a b : ℤ} (hab : a ≤ b) :
    bin_to_pitch a ≤ bin_to_pitch b := by
  rw [bin_to_pitch_eq, bin_to_pitch_eq]
  apply (Real.rpow_le_rpow_left_iff (by norm_num : (1 : ℝ) < 2)).mpr
  have h1 : ((a : ℝ)) / 360 ≤ (b : ℝ) / 360 :=
    (div_le_div_iff_of_pos_right (by norm_num)).mpr (Int.cast_le.mpr hab)
  have h2 := mul_le_mul_of_nonneg_right h1 logbL_pos.le
  linarith

lemma bin_to_pitch_zero : bin_to_pitch 0 = 50 := by
  have h : (((0 : ℤ) : ℝ)) / 360 * (Real.logb 2 500 - Real.logb 2 50) = 0 := by
    norm_num
  rw [bin_to_pitch_eq, h, add_zero]
  exact rpow_two_logb_eq (by norm_num)

lemma decode_encode_le {hz : ℝ} (h50 : 50 ≤ hz) (h500 : hz ≤ 500) :
    bin_to_pitch (pitch_to_bin hz) ≤ hz := by
  have h0 : (0 : ℝ) < hz := by linarith
  rw [pitch_to_bin_in_range h50 h500, bin_to_pitch_eq]
  have hcast : (((min ⌊binPos hz⌋ 359 : ℤ)) : ℝ) ≤ binPos hz := by
    have h1 : ((min ⌊binPos hz⌋ 359 : ℤ) : ℝ) ≤ ((⌊binPos hz⌋ : ℤ) : ℝ) := by
      exact_mod_cast min_le_left _ _
    exact h1.trans (Int.floor_le _)
  have hexp : Real.logb 2 50 + (((min ⌊binPos hz⌋ 359 : ℤ) : ℝ) / 360) *
      (Real.logb 2 500 - Real.logb 2 50) ≤ Real.logb 2 hz := by
    rw [logb_decomp hz]
    have h2 : (((min ⌊binPos hz⌋ 359 : ℤ) : ℝ)) / 360 ≤ binPos hz / 360 :=
      (div_le_div_iff_of_pos_right (by norm_num)).mpr hcast
    have h3 := mul_le_mul_of_nonneg_right h2 logbL_pos.le
    linarith
  have hfinal := (Real.rpow_le_rpow_left_iff (by norm_num : (1 : ℝ) < 2)).mpr hexp
  rwa [rpow_two_logb_eq h0] at hfinal

/-! ### Claim C6 — encode boundary behaviour -/

/-- Claim C6: with the default parameters, `pitch_to_bin` maps 50 Hz to bin 0;
every frequency inside the topmost bin and below 500 Hz to bin 359; never
produces bin 360; and for any frequency below 50 or above 500 it returns the
sentinel `-1`, a total-function result lying outside `[0, 360)`. -/
theorem c6_encode_boundaries :
    pitch_to_bin 50 = 0 ∧
    (∀ hz : ℝ, 50 * (10 : ℝ) ^ ((359 : ℝ) / 360) ≤ hz → hz < 500 →
      pitch_to_bin hz = 359) ∧
    (∀ hz : ℝ, pitch_to_bin hz ≠ 360) ∧
    (∀ hz : ℝ, hz < 50 ∨ 500 < hz →
      pitch_to_bin hz = -1 ∧ pitch_to_bin hz < 0) ∧
    pitch_to_bin 49.9 = -1 ∧
    pitch_to_bin 500.1 = -1 := by
  refine ⟨?_, ?_, ?_, ?_, ?_, ?_⟩
  · rw [pitch_to_bin_of_lt le_rfl (by norm_num)]
    have h : binPos 50 = 0 := by
      unfold binPos
      simp
    rw [h]
    exact Int.floor_zero
  · intro hz hA h500
    have h10 : (1 : ℝ) ≤ (10 : ℝ) ^ ((359 : ℝ) / 360) := by
      have h0 : (10 : ℝ) ^ (0 : ℝ) ≤ (10 : ℝ) ^ ((359 : ℝ) / 360) :=
        (Real.rpow_le_rpow_left_iff (by norm_num)).mpr (by norm_num)
      rwa [Real.rpow_zero] at h0
    have h50 : (50 : ℝ) ≤ hz := by nlinarith
    have hA0 : (0 : ℝ) < 50 * (10 : ℝ) ^ ((359 : ℝ) / 360) := by positivity
    have hlogA : Real.logb 2 (50 * (10 : ℝ) ^ ((359 : ℝ) / 360)) =
        Real.logb 2 50 +
          (359 / 360) * (Real.logb 2 500 - Real.logb 2 50) := by
      rw [Real.logb_mul (by norm_num) (by positivity),
        Real.logb_rpow_eq_mul_logb_of_pos (by norm_num), ← logbL_eq]
    have h359le : (359 : ℝ) ≤ binPos hz := by
      have hstep : Real.logb 2 (50 * (10 : ℝ) ^ ((359 : ℝ) / 360)) ≤
          Real.logb 2 hz :=
        Real.logb_le_logb_of_le (by norm_num) hA0 hA
      rw [hlogA] at hstep
      have hL := logbL_pos
      unfold binPos
      rw [div_mul_eq_mul_div, le_div_iff₀ hL]
      linarith
    have h360 : binPos hz < 360 := binPos_lt_360 h50 h500
    rw [pitch_to_bin_of_lt h50 h500]
    exact Int.floor_eq_iff.mpr ⟨by exact_mod_cast h359le, by push_cast; linarith⟩
  · intro hz
    unfold pitch_to_bin
    by_cases hc : hz < 50 ∨ 500 < hz
    · rw [if_pos hc]
      decide
    · rw [if_neg hc]
      push_cast
      omega
  · intro hz h
    unfold pitch_to_bin
    rw [if_pos h]
    exact ⟨rfl, by norm_num⟩
  · unfold pitch_to_bin
    rw [if_pos (Or.inl (by norm_num))]
  · unfold pitch_to_bin
    rw [if_pos (Or.inr (by norm_num))]

/-- Claim C6 witness: a concrete frequency inside the topmost bin encodes to
359, and a concrete out-of-range frequency gets the sentinel. -/
theorem c6_encode_witness :
    pitch_to_bin (50 * (10 : ℝ) ^ ((719 : ℝ) / 720)) = 359 ∧
    pitch_to_bin 20 = -1 := by
  constructor
  · apply c6_encode_boundaries.2.1
    · have h1 : (10 : ℝ) ^ ((359 : ℝ) / 360) ≤ (10 : ℝ) ^ ((719 : ℝ) / 720) :=
        (Real.rpow_le_rpow_left_iff (by norm_num : (1 : ℝ) < 10)).mpr (by norm_num)
      nlinarith
    · have h1 : (10 : ℝ) ^ ((719 : ℝ) / 720) < (10 : ℝ) ^ (1 : ℝ) :=
        (Real.rpow_lt_rpow_left_iff (by norm_num)).mpr (by norm_num)
      rw [Real.rpow_one] at h1
      nlinarith
  · exact (c6_encode_boundaries.2.2.2.1 20 (Or.inl (by norm_num))).1

/-! ### Claim C7 — lossy one-bin round trip -/

/-- Claim C7: for frequencies in `[50, 500)` the encode-decode round trip
stays within one bin-width of log-frequency error, the composite map is
monotone, and the round trip is lossy — some in-range frequency does not come
back unchanged. -/
theorem c7_roundtrip_one_bin :
    (∀ hz : ℝ, 50 ≤ hz → hz < 500 →
      |Real.logb 2 (bin_to_pitch (pitch_to_bin hz)) - Real.logb 2 hz| ≤
        (Real.logb 2 500 - Real.logb 2 50) / 360) ∧
    (∀ hz₁ hz₂ : ℝ, 50 ≤ hz₁ → hz₁ ≤ hz₂ → hz₂ < 500 →
      bin_to_pitch (pitch_to_bin hz₁) ≤ bin_to_pitch (pitch_to_bin hz₂)) ∧
    (∃ hz : ℝ, 50 ≤ hz ∧ hz < 500 ∧ bin_to_pitch (pitch_to_bin hz) ≠ hz) := by
  refine ⟨?_, ?_, ?_⟩
  · intro hz h50 h500
    have h0 : (0 : ℝ) < hz := by linarith
    have hL := logbL_pos
    rw [pitch_to_bin_of_lt h50 h500]
    have hfl : ((⌊binPos hz⌋ : ℤ) : ℝ) ≤ binPos hz := Int.floor_le _
    have hfu : binPos hz < ((⌊binPos hz⌋ : ℤ) : ℝ) + 1 := Int.lt_floor_add_one _
    have habs : Real.logb 2 (bin_to_pitch ⌊binPos hz⌋) - Real.logb 2 hz =
        ((((⌊binPos hz⌋ : ℤ) : ℝ) - binPos hz) / 360) *
          (Real.logb 2 500 - Real.logb 2 50) := by
      rw [logb_bin_to_pitch, logb_decomp hz]
      ring
    rw [habs, abs_mul, abs_div, abs_of_pos hL,
      abs_of_pos (show (0 : ℝ) < 360 by norm_num),
      abs_of_nonpos (show ((⌊binPos hz⌋ : ℤ) : ℝ) - binPos hz ≤ 0 by linarith)]
    have h1 : binPos hz - ((⌊binPos hz⌋ : ℤ) : ℝ) ≤ 1 := by linarith
    have h4 : (binPos hz - ((⌊binPos hz⌋ : ℤ) : ℝ)) *
        (Real.logb 2 500 - Real.logb 2 50) ≤
        1 * (Real.logb 2 500 - Real.logb 2 50) :=
      mul_le_mul_of_nonneg_right h1 hL.le
    linarith
  · intro hz₁ hz₂ h1 h12 h2
    have h0₁ : (0 : ℝ) < hz₁ := by linarith
    have h50₂ : (50 : ℝ) ≤ hz₂ := le_trans h1 h12
    have h500₁ : hz₁ < 500 := lt_of_le_of_lt h12 h2
    rw [pitch_to_bin_of_lt h1 h500₁, pitch_to_bin_of_lt h50₂ h2]
    apply bin_to_pitch_mono
    apply Int.floor_le_floor
    unfold binPos
    apply mul_le_mul_of_nonneg_right _ (by norm_num : (0 : ℝ) ≤ 360)
    apply (div_le_div_iff_of_pos_right logbL_pos).mpr
    exact sub_le_sub_right
      (Real.logb_le_logb_of_le (by norm_num) h0₁ h12) _
  · have hL := logbL_pos
    have hlog₀ : Real.logb 2 ((2 : ℝ) ^ (Real.logb 2 50 +
        (Real.logb 2 500 - Real.logb 2 50) / 720)) =
        Real.logb 2 50 + (Real.logb 2 500 - Real.logb 2 50) / 720 :=
      Real.logb_rpow (by norm_num) (by norm_num)
    have h50₀ : (50 : ℝ) ≤ (2 : ℝ) ^ (Real.logb 2 50 +
        (Real.logb 2 500 - Real.logb 2 50) / 720) := by
      have h1 : (2 : ℝ) ^ (Real.logb 2 50) ≤ (2 : ℝ) ^ (Real.logb 2 50 +
          (Real.logb 2 500 - Real.logb 2 50) / 720) :=
        (Real.rpow_le_rpow_left_iff (by norm_num)).mpr (by linarith)
      rwa [rpow_two_logb_eq (by norm_num)] at h1
    have h500₀ : (2 : ℝ) ^ (Real.logb 2 50 +
        (Real.logb 2 500 - Real.logb 2 50) / 720) < 500 := by
      have h1 : (2 : ℝ) ^ (Real.logb 2 50 +
          (Real.logb 2 500 - Real.logb 2 50) / 720) <
          (2 : ℝ) ^ (Real.logb 2 500) :=
        (Real.rpow_lt_rpow_left_iff (by norm_num)).mpr (by linarith)
      rwa [rpow_two_logb_eq (by norm_num)] at h1
    have hbp : binPos ((2 : ℝ) ^ (Real.logb 2 50 +
        (Real.logb 2 500 - Real.logb 2 50) / 720)) = 1 / 2 := by
      have hLne : Real.logb 2 500 - Real.logb 2 50 ≠ 0 := hL.ne'
      unfold binPos
      rw [hlog₀]
      field_simp
      ring
    have henc : pitch_to_bin ((2 : ℝ) ^ (Real.logb 2 50 +
        (Real.logb 2 500 - Real.logb 2 50) / 720)) = 0 := by
      rw [pitch_to_bin_of_lt h50₀ h500₀, hbp]
      norm_num
    refine ⟨(2 : ℝ) ^ (Real.logb 2 50 +
      (Real.logb 2 500 - Real.logb 2 50) / 720), h50₀, h500₀, ?_⟩
    rw [henc, bin_to_pitch_zero]
    have hlt : (50 : ℝ) < (2 : ℝ) ^ (Real.logb 2 50 +
        (Real.logb 2 500 - Real.logb 2 50) / 720) := by
      have h1 : (2 : ℝ) ^ (Real.logb 2 50) < (2 : ℝ) ^ (Real.logb 2 50 +
          (Real.logb 2 500 - Real.logb 2 50) / 720) :=
        (Real.rpow_lt_rpow_left_iff (by norm_num)).mpr (by linarith)
      rwa [rpow_two_logb_eq (by norm_num)] at h1
    exact ne_of_lt hlt

/-- Claim C7 witness: the error bound of the round trip at the concrete
in-range frequency 50 Hz. -/
theorem c7_roundtrip_witness :
    |Real.logb 2 (bin_to_pitch (pitch_to_bin 50)) - Real.logb 2 50| ≤
      (Real.logb 2 500 - Real.logb 2 50) / 360 :=
  c7_roundtrip_one_bin.1 50 le_rfl (by norm_num)

/-! ### Claim C10 — decode yields the lower bin edge -/

/-- Claim C10: `bin_to_pitch` returns the lower log-frequency edge of a bin,
not its midpoint — bin 0 decodes to exactly 50 Hz, and for every frequency in
`[50, 500]` the round trip never overestimates the input. -/
theorem c10_decode_lower_edge :
    bin_to_pitch 0 = 50 ∧
    (∀ hz : ℝ, 50 ≤ hz → hz ≤ 500 → bin_to_pitch (pitch_to_bin hz) ≤ hz) := by
  exact ⟨bin_to_pitch_zero, fun hz h1 h2 => decode_encode_le h1 h2⟩

/-- Claim C10 witness: the round-trip upper bound at the concrete boundary
frequency 500 Hz. -/
theorem c10_decode_witness : bin_to_pitch (pitch_to_bin 500) ≤ 500 :=
  c10_decode_lower_edge.2 500 (by norm_num) le_rfl

end Riwaz
